import Mathlib

/-!
# Verification of the pair-programming relay core

Shallow embedding of the repository's core components:

* `ConnectionManager` (src/backend/app/core/ws_manager.py): an in-memory
  dict from room id to the list of live websockets, with `connect`,
  `disconnect` and `broadcast`.
* `room_crud` (src/backend/app/crud/room_crud.py): the durable room store
  (`get_room_code`, `update_room_code`), modelled over the list of rows of
  the `rooms` table.
* `ws_coding` (src/backend/app/api/v1/endpoints/coding.py): the
  per-connection websocket session: room-existence check, join, initial
  snapshot, then the receive loop persisting and fanning out each message.

Websockets are abstract handles (`WS := Nat`); a Python dict is an
association list with unique keys, insertion-ordered; Python exceptions are
explicit `raised` flags carrying the (unmutated) state.
-/

namespace PairProg

/-- Abstract handle for a `fastapi.WebSocket` connection object. -/
abbrev WS := Nat

/-- Room identifiers are strings (8-char uuid-derived tokens). -/
abbrev RoomId := String

/-- The dict `ConnectionManager.active_connections`: a Python dict keyed by room id,
insertion-ordered with unique keys, whose values are lists of websockets. -/
abbrev Registry := List (RoomId × List WS)

/-- Dict lookup `self.active_connections.get(room_id)` / the
`room_id in self.active_connections` test: first entry with the key. -/
def lookupRoom (reg : Registry) (r : RoomId) : Option (List WS) :=
  (reg.find? (fun p => p.1 = r)).map (·.2)

/-- Dict assignment `self.active_connections[room_id] = l`: replace the value
of the first entry with the key in place, or append a new entry. -/
def setRoom (reg : Registry) (r : RoomId) (l : List WS) : Registry :=
  match reg with
  | [] => [(r, l)]
  | p :: rest => if p.1 = r then (r, l) :: rest else p :: setRoom rest r l

/-- Dict deletion `del self.active_connections[room_id]`: drop the first
entry with the key. -/
def delRoom (reg : Registry) (r : RoomId) : Registry :=
  match reg with
  | [] => []
  | p :: rest => if p.1 = r then rest else p :: delRoom rest r

/-- Python `ConnectionManager.connect(websocket, room_id)` (ws_manager.py lines
9-13): create the room's entry if absent, then append the websocket.
(The channel-level `websocket.accept()` has no registry effect.) -/
def connect (websocket : WS) (room_id : RoomId) (reg : Registry) : Registry :=
  match lookupRoom reg room_id with
  | none => setRoom reg room_id [websocket]
  | some l => setRoom reg room_id (l ++ [websocket])

/-- Result of a Python call that may raise: `raised = true` means an
exception propagated to the caller; `reg` is the registry state after the
call (unmutated when the exception fired before any mutation). -/
structure DisconnectResult where
  raised : Bool
  reg : Registry
  deriving Repr, DecidableEq

/-- Python `ConnectionManager.disconnect(websocket, room_id)` (ws_manager.py lines
15-19): if the room has an entry, `list.remove(websocket)` drops the first
occurrence — raising `ValueError` (state unchanged) when the websocket is
not in the list — then the entry is deleted if it became empty. No entry:
no-op. -/
def disconnect (websocket : WS) (room_id : RoomId) (reg : Registry) :
    DisconnectResult :=
  match lookupRoom reg room_id with
  | none => ⟨false, reg⟩
  | some l =>
    if websocket ∈ l then
      let l2 := l.erase websocket
      if l2 = [] then ⟨false, delRoom reg room_id⟩
      else ⟨false, setRoom reg room_id l2⟩
    else ⟨true, reg⟩

/-- Result of `ConnectionManager.broadcast`: `sent` records, in iteration
order, each delivery `(connection, message)` made by `connection.send_text
(message)`; `raised = true` means a `send_text` call raised and the
exception propagated (the `for` loop has no handler, so it aborts). -/
structure BroadcastResult where
  sent : List (WS × String)
  raised : Bool
  deriving Repr, DecidableEq

/-- The `for connection in ...: if connection != sender: await
connection.send_text(message)` loop of `ConnectionManager.broadcast`
(ws_manager.py lines 24-26). `fails c = true` models `c.send_text` raising
(e.g. the channel is already closed): the loop stops and the exception
propagates. -/
def send_loop (fails : WS → Bool) (message : String) (sender : WS) :
    List WS → BroadcastResult
  | [] => ⟨[], false⟩
  | c :: rest =>
    if c ≠ sender then
      if fails c then ⟨[], true⟩
      else
        let res := send_loop fails message sender rest
        ⟨(c, message) :: res.sent, res.raised⟩
    else send_loop fails message sender rest

/-- Python `ConnectionManager.broadcast(message, room_id, sender)` (ws_manager.py
lines 21-26): iterate the room's entry, sending to every connection other
than the sender; no entry means no iteration. -/
def broadcast (fails : WS → Bool) (message : String) (room_id : RoomId)
    (sender : WS) (reg : Registry) : BroadcastResult :=
  match lookupRoom reg room_id with
  | none => ⟨[], false⟩
  | some l => send_loop fails message sender l

/-! ## RoomStore: room_crud.py over the rows of the `rooms` table -/

/-- A row of the `rooms` table (src/backend/app/models/room.py):
`room_id` primary key, `code_content` text. -/
structure Room where
  room_id : RoomId
  code_content : String
  deriving Repr, DecidableEq

/-- The database state visible to room_crud: the list of `rooms` rows.
`query(Room).filter(Room.room_id == r).first()` is the first row matching. -/
abbrev Store := List Room

/-- Modelled from the spec: `get(id) -> Room | NotFound` — "returns the
persisted snapshot or a NotFound signal; must not raise on unknown ids".
`room_crud.get_room_by_id` is called by the `ws_coding` endpoint and
exercised by test_room_crud.py, but the function body is absent from
src/backend/app/crud/room_crud.py. -/
def get_room_by_id (db : Store) (room_id : RoomId) : Option Room :=
  db.find? (fun room => room.room_id = room_id)

/-- Python `room_crud.get_room_code(db, room_id)` (room_crud.py lines 14-17):
`room.code_content if room else None`. -/
def get_room_code (db : Store) (room_id : RoomId) : Option String :=
  (db.find? (fun room => room.room_id = room_id)).map (·.code_content)

/-- Python `room_crud.update_room_code(db, room_id, code_content)` (room_crud.py
lines 19-24): fetch the first row matching; if present overwrite its
`code_content` and commit, otherwise do nothing. Returns the new table
state. -/
def update_room_code (db : Store) (room_id : RoomId) (code_content : String) :
    Store :=
  match db with
  | [] => []
  | room :: rest =>
    if room.room_id = room_id then { room with code_content := code_content } :: rest
    else room :: update_room_code rest room_id code_content

/-- The Python value `update_room_code` returns to its caller: the function
body has no `return` statement, so every call returns `None` (here `Unit`),
on a hit and on a miss alike. -/
def update_room_code_ret (_db : Store) (_room_id : RoomId)
    (_code_content : String) : Unit := ()

/-! ## The ws_coding session (coding.py lines 82-119) -/

/-- One event on the session's channel while the receive loop blocks in
`websocket.receive_text()`: either a text frame arrives, or the client
disconnects and `receive_text` raises `WebSocketDisconnect`. -/
inductive Ev where
  | msg (data : String)
  | close
  deriving Repr, DecidableEq

/-- Abstract record of the calls the session makes, in order. -/
inductive Call where
  | putCall (m : String)
  | broadcastCall (m : String)
  | leaveCall
  deriving Repr, DecidableEq

/-- State and trace produced by a run of the `ws_coding` session. -/
structure SessionResult where
  db : Store
  reg : Registry
  log : List Call
  closeCode : Option Nat
  initialSent : Option String
  crashed : Bool
  deriving Repr, DecidableEq

/-- State and trace produced by a run of the receive loop. -/
structure LoopResult where
  db : Store
  reg : Registry
  log : List Call
  crashed : Bool
  deriving Repr, DecidableEq

/-- The `while True` receive loop of `ws_coding` (coding.py lines 107-119):
on a text frame, `update_room_code` then `manager.broadcast`; a raise from
broadcast is not `WebSocketDisconnect`, so it escapes the `try` without
running `manager.disconnect` (`crashed = true`). On `WebSocketDisconnect`,
the `except` clause runs `manager.disconnect`. An exhausted event list
leaves the session blocked in `receive_text` (no closure yet). -/
def ws_loop (fails : WS → Bool) (websocket : WS) (room_id : RoomId) :
    List Ev → Store → Registry → LoopResult
  | [], db, reg => ⟨db, reg, [], false⟩
  | Ev.close :: _, db, reg =>
    let d := disconnect websocket room_id reg
    ⟨db, d.reg, [Call.leaveCall], d.raised⟩
  | Ev.msg m :: rest, db, reg =>
    let db1 := update_room_code db room_id m
    let b := broadcast fails m room_id websocket reg
    if b.raised then ⟨db1, reg, [Call.putCall m, Call.broadcastCall m], true⟩
    else
      let res := ws_loop fails websocket room_id rest db1 reg
      ⟨res.db, res.reg, Call.putCall m :: Call.broadcastCall m :: res.log, res.crashed⟩

/-- Endpoint `ws_coding(websocket, room_id, db)` (coding.py lines 82-119): look the
room up; if absent, close the channel with code 1008 (policy violation) and
return without touching the registry. Otherwise `manager.connect`, send the
stored content as the initial frame when it is non-empty, and enter the
receive loop. -/
def ws_coding (fails : WS → Bool) (websocket : WS) (room_id : RoomId)
    (events : List Ev) (db : Store) (reg : Registry) : SessionResult :=
  match get_room_by_id db room_id with
  | none => ⟨db, reg, [], some 1008, none, false⟩
  | some room =>
    let reg1 := connect websocket room_id reg
    let init := if room.code_content ≠ "" then some room.code_content else none
    let res := ws_loop fails websocket room_id events db reg1
    ⟨res.db, res.reg, res.log, none, init, res.crashed⟩

/-! ## Registry operation sequences (for the registry invariant) -/

/-- A join or leave on the registry, as issued by sessions. -/
inductive Op where
  | join (websocket : WS) (room_id : RoomId)
  | leave (websocket : WS) (room_id : RoomId)
  deriving Repr, DecidableEq

/-- Apply one operation; a `ValueError` from `disconnect` leaves the
registry as it was (the exception fires before any mutation). -/
def applyOp (reg : Registry) : Op → Registry
  | Op.join ws r => connect ws r reg
  | Op.leave ws r => (disconnect ws r reg).reg

/-- Run a sequence of operations from the empty registry. -/
def runOps (ops : List Op) : Registry :=
  ops.foldl applyOp []

/-! ## Helper lemmas about the registry dictionary -/

theorem lookupRoom_nil (r : RoomId) : lookupRoom [] r = none := rfl

theorem lookupRoom_cons (p : RoomId × List WS) (rest : Registry) (r : RoomId) :
    lookupRoom (p :: rest) r = if p.1 = r then some p.2 else lookupRoom rest r := by
  by_cases h : p.1 = r <;> simp [lookupRoom, List.find?_cons, h]

theorem lookupRoom_setRoom_self (reg : Registry) (r : RoomId) (l : List WS) :
    lookupRoom (setRoom reg r l) r = some l := by
  induction reg with
  | nil => simp [setRoom, lookupRoom_cons]
  | cons p rest ih =>
    by_cases h : p.1 = r
    · simp [setRoom, h, lookupRoom_cons]
    · simp [setRoom, h, lookupRoom_cons, ih]

theorem setRoom_nil (r : RoomId) (l : List WS) : setRoom [] r l = [(r, l)] := rfl

theorem setRoom_cons (p : RoomId × List WS) (rest : Registry) (r : RoomId)
    (l : List WS) :
    setRoom (p :: rest) r l =
      if p.1 = r then (r, l) :: rest else p :: setRoom rest r l := rfl

theorem delRoom_cons (p : RoomId × List WS) (rest : Registry) (r : RoomId) :
    delRoom (p :: rest) r = if p.1 = r then rest else p :: delRoom rest r := rfl

theorem lookupRoom_setRoom_ne (reg : Registry) (r s : RoomId) (l : List WS)
    (h : s ≠ r) : lookupRoom (setRoom reg r l) s = lookupRoom reg s := by
  have hrs : ¬ r = s := fun hc => h hc.symm
  induction reg with
  | nil => rw [setRoom_nil, lookupRoom_cons, if_neg hrs, lookupRoom_nil]
  | cons p rest ih =>
    rw [setRoom_cons]
    by_cases hp : p.1 = r
    · rw [if_pos hp, lookupRoom_cons, lookupRoom_cons, if_neg hrs,
        if_neg (by rw [hp]; exact hrs)]
    · rw [if_neg hp, lookupRoom_cons, lookupRoom_cons, ih]

theorem lookupRoom_delRoom_ne (reg : Registry) (r s : RoomId)
    (h : s ≠ r) : lookupRoom (delRoom reg r) s = lookupRoom reg s := by
  induction reg with
  | nil => rfl
  | cons p rest ih =>
    rw [delRoom_cons]
    by_cases hp : p.1 = r
    · rw [if_pos hp, lookupRoom_cons,
        if_neg (by rw [hp]; exact fun hc => h hc.symm)]
    · rw [if_neg hp, lookupRoom_cons, lookupRoom_cons, ih]

/-- The keys of the registry dictionary (Python dict keys are unique). -/
def regKeys (reg : Registry) : List RoomId := reg.map Prod.fst

theorem regKeys_cons (p : RoomId × List WS) (rest : Registry) :
    regKeys (p :: rest) = p.1 :: regKeys rest := rfl

theorem lookupRoom_eq_none_of_not_mem_keys (reg : Registry) (r : RoomId)
    (h : r ∉ regKeys reg) : lookupRoom reg r = none := by
  induction reg with
  | nil => rfl
  | cons p rest ih =>
    rw [regKeys_cons, List.mem_cons] at h
    push_neg at h
    rw [lookupRoom_cons, if_neg (fun hc => h.1 hc.symm)]
    exact ih h.2

theorem mem_keys_of_mem_keys_setRoom (reg : Registry) (r x : RoomId) (l : List WS)
    (h : x ∈ regKeys (setRoom reg r l)) : x ∈ regKeys reg ∨ x = r := by
  induction reg with
  | nil =>
    rw [setRoom_nil, regKeys_cons] at h
    rcases List.mem_cons.mp h with h2 | h2
    · exact Or.inr h2
    · cases h2
  | cons p rest ih =>
    rw [setRoom_cons] at h
    by_cases hp : p.1 = r
    · rw [if_pos hp, regKeys_cons] at h
      rw [regKeys_cons]
      rcases List.mem_cons.mp h with h2 | h2
      · exact Or.inr h2
      · exact Or.inl (List.mem_cons_of_mem _ h2)
    · rw [if_neg hp, regKeys_cons] at h
      rw [regKeys_cons]
      rcases List.mem_cons.mp h with h2 | h2
      · exact Or.inl (by rw [h2]; exact List.mem_cons_self _ _)
      · rcases ih h2 with h3 | h3
        · exact Or.inl (List.mem_cons_of_mem _ h3)
        · exact Or.inr h3

theorem keys_nodup_setRoom (reg : Registry) (r : RoomId) (l : List WS)
    (h : (regKeys reg).Nodup) : (regKeys (setRoom reg r l)).Nodup := by
  induction reg with
  | nil => simp [setRoom_nil, regKeys]
  | cons p rest ih =>
    rw [regKeys_cons, List.nodup_cons] at h
    rw [setRoom_cons]
    by_cases hp : p.1 = r
    · rw [if_pos hp, regKeys_cons, List.nodup_cons]
      exact ⟨fun hm => h.1 (by rw [hp]; exact hm), h.2⟩
    · rw [if_neg hp, regKeys_cons, List.nodup_cons]
      refine ⟨?_, ih h.2⟩
      intro hm
      rcases mem_keys_of_mem_keys_setRoom rest r p.1 l hm with h2 | h2
      · exact h.1 h2
      · exact hp h2

theorem keys_delRoom_sublist (reg : Registry) (r : RoomId) :
    (regKeys (delRoom reg r)).Sublist (regKeys reg) := by
  induction reg with
  | nil => exact List.Sublist.refl _
  | cons p rest ih =>
    rw [delRoom_cons]
    by_cases hp : p.1 = r
    · rw [if_pos hp, regKeys_cons]
      exact List.sublist_cons_self _ _
    · rw [if_neg hp, regKeys_cons, regKeys_cons]
      exact List.Sublist.cons₂ p.1 ih

theorem keys_nodup_delRoom (reg : Registry) (r : RoomId)
    (h : (regKeys reg).Nodup) : (regKeys (delRoom reg r)).Nodup :=
  (keys_delRoom_sublist reg r).nodup h

theorem lookupRoom_delRoom_self (reg : Registry) (r : RoomId)
    (h : (regKeys reg).Nodup) : lookupRoom (delRoom reg r) r = none := by
  induction reg with
  | nil => rfl
  | cons p rest ih =>
    rw [regKeys_cons, List.nodup_cons] at h
    rw [delRoom_cons]
    by_cases hp : p.1 = r
    · rw [if_pos hp]
      exact lookupRoom_eq_none_of_not_mem_keys rest r
        (fun hm => h.1 (by rw [hp]; exact hm))
    · rw [if_neg hp, lookupRoom_cons, if_neg hp]
      exact ih h.2

/-- The deliveries made by the broadcast loop: the non-sender connections up
to (excluding) the first one whose send fails, each paired with the message. -/
theorem send_loop_sent (fails : WS → Bool) (message : String) (sender : WS)
    (l : List WS) :
    (send_loop fails message sender l).sent =
      ((l.filter fun c => c ≠ sender).takeWhile fun c => !(fails c)).map
        fun c => (c, message) := by
  induction l with
  | nil => rfl
  | cons c rest ih =>
    by_cases hc : c = sender
    · simp [send_loop, hc, List.filter_cons, ih]
    · by_cases hf : fails c
      · simp [send_loop, hc, hf, List.filter_cons, List.takeWhile_cons]
      · simp [send_loop, hc, hf, List.filter_cons, List.takeWhile_cons, ih]

/-- The broadcast loop propagates an exception exactly when some non-sender
connection's send fails. -/
theorem send_loop_raised (fails : WS → Bool) (message : String) (sender : WS)
    (l : List WS) :
    (send_loop fails message sender l).raised =
      (l.filter fun c => c ≠ sender).any fails := by
  induction l with
  | nil => rfl
  | cons c rest ih =>
    by_cases hc : c = sender
    · simp [send_loop, hc, List.filter_cons, ih]
    · by_cases hf : fails c
      · simp [send_loop, hc, hf, List.filter_cons]
      · simp [send_loop, hc, hf, List.filter_cons, ih]

theorem mem_of_lookupRoom_eq_some (reg : Registry) (r : RoomId) (l : List WS)
    (h : lookupRoom reg r = some l) : (r, l) ∈ reg := by
  induction reg with
  | nil => cases h
  | cons p rest ih =>
    rw [lookupRoom_cons] at h
    by_cases hp : p.1 = r
    · rw [if_pos hp] at h
      have h2 : p = (r, l) := Prod.ext hp (Option.some.inj h)
      rw [h2]
      exact List.mem_cons_self _ _
    · rw [if_neg hp] at h
      exact List.mem_cons_of_mem _ (ih h)

/-! ## Registry invariant machinery -/

/-- The invariant of the reachable registry states: keys are unique (a
Python dict) and every room entry holds at least one connection. -/
def RegInv (reg : Registry) : Prop :=
  (regKeys reg).Nodup ∧ ∀ p ∈ reg, p.2 ≠ []

theorem regInv_nil : RegInv [] :=
  ⟨List.nodup_nil, fun p hp => absurd hp (List.not_mem_nil p)⟩

theorem mem_setRoom (reg : Registry) (r : RoomId) (l : List WS)
    (q : RoomId × List WS) (h : q ∈ setRoom reg r l) : q ∈ reg ∨ q = (r, l) := by
  induction reg with
  | nil =>
    rw [setRoom_nil] at h
    rcases List.mem_cons.mp h with h2 | h2
    · exact Or.inr h2
    · cases h2
  | cons p rest ih =>
    rw [setRoom_cons] at h
    by_cases hp : p.1 = r
    · rw [if_pos hp] at h
      rcases List.mem_cons.mp h with h2 | h2
      · exact Or.inr h2
      · exact Or.inl (List.mem_cons_of_mem _ h2)
    · rw [if_neg hp] at h
      rcases List.mem_cons.mp h with h2 | h2
      · exact Or.inl (by rw [h2]; exact List.mem_cons_self _ _)
      · rcases ih h2 with h3 | h3
        · exact Or.inl (List.mem_cons_of_mem _ h3)
        · exact Or.inr h3

theorem delRoom_sublist (reg : Registry) (r : RoomId) :
    (delRoom reg r).Sublist reg := by
  induction reg with
  | nil => exact List.Sublist.refl _
  | cons p rest ih =>
    rw [delRoom_cons]
    by_cases hp : p.1 = r
    · rw [if_pos hp]
      exact List.sublist_cons_self _ _
    · rw [if_neg hp]
      exact List.Sublist.cons₂ p ih

theorem regInv_setRoom (reg : Registry) (r : RoomId) (l : List WS)
    (h : RegInv reg) (hl : l ≠ []) : RegInv (setRoom reg r l) := by
  refine ⟨keys_nodup_setRoom reg r l h.1, fun q hq => ?_⟩
  rcases mem_setRoom reg r l q hq with h2 | h2
  · exact h.2 q h2
  · rw [h2]
    exact hl

theorem regInv_delRoom (reg : Registry) (r : RoomId) (h : RegInv reg) :
    RegInv (delRoom reg r) :=
  ⟨keys_nodup_delRoom reg r h.1,
    fun q hq => h.2 q ((delRoom_sublist reg r).subset hq)⟩

theorem regInv_connect (reg : Registry) (ws : WS) (r : RoomId)
    (h : RegInv reg) : RegInv (connect ws r reg) := by
  rw [connect]
  cases hl : lookupRoom reg r with
  | none => exact regInv_setRoom reg r [ws] h (by simp)
  | some l => exact regInv_setRoom reg r (l ++ [ws]) h (by simp)

theorem regInv_disconnect (reg : Registry) (ws : WS) (r : RoomId)
    (h : RegInv reg) : RegInv (disconnect ws r reg).reg := by
  cases hl : lookupRoom reg r with
  | none =>
    have hd : disconnect ws r reg = ⟨false, reg⟩ := by simp [disconnect, hl]
    rw [hd]
    exact h
  | some l =>
    by_cases hm : ws ∈ l
    · by_cases he : l.erase ws = []
      · have hd : disconnect ws r reg = ⟨false, delRoom reg r⟩ := by
          simp [disconnect, hl, hm, he]
        rw [hd]
        exact regInv_delRoom reg r h
      · have hd : disconnect ws r reg = ⟨false, setRoom reg r (l.erase ws)⟩ := by
          simp [disconnect, hl, hm, he]
        rw [hd]
        exact regInv_setRoom reg r (l.erase ws) h he
    · have hd : disconnect ws r reg = ⟨true, reg⟩ := by
        simp [disconnect, hl, hm]
      rw [hd]
      exact h

theorem regInv_foldl (ops : List Op) : ∀ reg : Registry, RegInv reg →
    RegInv (ops.foldl applyOp reg) := by
  induction ops with
  | nil => exact fun reg h => h
  | cons op rest ih =>
    intro reg h
    rw [List.foldl_cons]
    cases op with
    | join ws r => exact ih _ (regInv_connect reg ws r h)
    | leave ws r => exact ih _ (regInv_disconnect reg ws r h)

/-! ## Claim theorems -/

/-- C5: after every sequence of join/leave operations from the empty
registry, every room entry holds at least one connection (a room id has an
entry iff some connection is registered under it); and the leave that
removes a room's last connection deletes the entry itself, without
raising. -/
theorem registry_entry_iff_nonempty (ops : List Op) :
    (∀ r l, lookupRoom (runOps ops) r = some l → l ≠ []) ∧
    (∀ r ws, lookupRoom (runOps ops) r = some [ws] →
      (disconnect ws r (runOps ops)).raised = false ∧
      lookupRoom (disconnect ws r (runOps ops)).reg r = none) := by
  have hinv : RegInv (runOps ops) := regInv_foldl ops [] regInv_nil
  constructor
  · intro r l h
    exact hinv.2 (r, l) (mem_of_lookupRoom_eq_some _ _ _ h)
  · intro r ws h
    have hd : disconnect ws r (runOps ops) = ⟨false, delRoom (runOps ops) r⟩ := by
      simp [disconnect, h]
    rw [hd]
    exact ⟨rfl, lookupRoom_delRoom_self _ _ hinv.1⟩

theorem registry_entry_iff_nonempty_wit :
    ([0] : List WS) ≠ [] ∧
    (disconnect 0 "r" (runOps [Op.join 0 "r"])).raised = false ∧
    lookupRoom (disconnect 0 "r" (runOps [Op.join 0 "r"])).reg "r" = none :=
  ⟨(registry_entry_iff_nonempty [Op.join 0 "r"]).1 "r" [0] rfl,
    (registry_entry_iff_nonempty [Op.join 0 "r"]).2 "r" 0 rfl⟩

/-- C1: a session opened for a room id absent from the store closes the
channel with close code 1008 (policy violation) and performs no mutation of
the connection registry: the session result returns the registry exactly as
it was, with an empty call log. -/
theorem ws_coding_unknown_room_rejects (fails : WS → Bool) (websocket : WS)
    (room_id : RoomId) (events : List Ev) (db : Store) (reg : Registry)
    (h : get_room_by_id db room_id = none) :
    ws_coding fails websocket room_id events db reg =
      ⟨db, reg, [], some 1008, none, false⟩ := by
  simp only [ws_coding, h]

theorem ws_coding_unknown_room_rejects_wit :
    ws_coding (fun _ => false) 0 "missing" [Ev.msg "x"] [⟨"other", "c"⟩]
        [("other", [7])] =
      ⟨[⟨"other", "c"⟩], [("other", [7])], [], some 1008, none, false⟩ :=
  ws_coding_unknown_room_rejects (fun _ => false) 0 "missing" [Ev.msg "x"]
    [⟨"other", "c"⟩] [("other", [7])] rfl

/-- C2, counterexample: with registry `{"r": [1]}`, disconnecting
websocket `2` from room `"r"` — the entry exists but does not contain the
websocket — raises (`list.remove` raises `ValueError`), refuting that
disconnect never errors on absent membership. The registry is left
unchanged. -/
theorem disconnect_raises_when_not_member :
    disconnect 2 "r" [("r", [1])] = ⟨true, [("r", [1])]⟩ := rfl

/-- C2, amended: disconnect is an error-free no-op when the room has no
registry entry at all; but when the room's entry exists and does not contain
the websocket, it raises `ValueError` (leaving the registry unchanged). -/
theorem disconnect_on_absent_membership (websocket : WS) (room_id : RoomId)
    (reg : Registry) :
    (lookupRoom reg room_id = none →
      disconnect websocket room_id reg = ⟨false, reg⟩) ∧
    (∀ l, lookupRoom reg room_id = some l → websocket ∉ l →
      disconnect websocket room_id reg = ⟨true, reg⟩) := by
  constructor
  · intro h
    simp only [disconnect, h]
  · intro l h hm
    simp only [disconnect, h]
    rw [if_neg hm]

theorem disconnect_on_absent_membership_wit :
    disconnect 5 "q" [("r", [1])] = ⟨false, [("r", [1])]⟩ ∧
    disconnect 9 "r" [("r", [1, 3])] = ⟨true, [("r", [1, 3])]⟩ :=
  ⟨(disconnect_on_absent_membership 5 "q" [("r", [1])]).1 rfl,
    (disconnect_on_absent_membership 9 "r" [("r", [1, 3])]).2 [1, 3] rfl
      (by decide)⟩

/-- C3, counterexample: room `"r"` holds `[0, 1, 2]`, sender `0`; the
send to `1` fails. Recipient `2` receives nothing and the exception
propagates to the broadcasting caller — refuting that a send failure does
not abort delivery to the remaining recipients. -/
theorem broadcast_failure_aborts_cex :
    (broadcast (fun w => w == 1) "m" "r" 0 [("r", [0, 1, 2])]).raised = true ∧
    (2, "m") ∉ (broadcast (fun w => w == 1) "m" "r" 0 [("r", [0, 1, 2])]).sent :=
  by decide

/-- C3, amended: a send failure during broadcast aborts the loop: the
non-sender connections strictly before the first failing one (in entry
order) have received the message, the later ones receive nothing, and the
failure propagates to the broadcasting caller (`raised` is true exactly
when some non-sender's send fails). -/
theorem broadcast_aborts_at_first_failure (fails : WS → Bool)
    (message : String) (room_id : RoomId) (sender : WS) (reg : Registry)
    (l : List WS) (h : lookupRoom reg room_id = some l) :
    broadcast fails message room_id sender reg =
      ⟨((l.filter fun c => c ≠ sender).takeWhile fun c => !(fails c)).map
          (fun c => (c, message)),
        (l.filter fun c => c ≠ sender).any fails⟩ := by
  simp only [broadcast, h]
  rw [← send_loop_sent fails message sender l,
    ← send_loop_raised fails message sender l]

theorem broadcast_aborts_at_first_failure_wit :
    broadcast (fun w => w == 2) "m" "r" 0 [("r", [0, 1, 2, 3])] =
      ⟨[(1, "m")], true⟩ :=
  (broadcast_aborts_at_first_failure (fun w => w == 2) "m" "r" 0
    [("r", [0, 1, 2, 3])] [0, 1, 2, 3] rfl).trans (by decide)

/-- C8: for a room present in the store, `update_room_code` followed by
`get_room_code` returns exactly the written content. -/
theorem put_get_roundtrip (db : Store) (room_id : RoomId) (X : String)
    (room : Room) (h : get_room_by_id db room_id = some room) :
    get_room_code (update_room_code db room_id X) room_id = some X := by
  induction db with
  | nil => cases h
  | cons rm rest ih =>
    by_cases hr : rm.room_id = room_id
    · simp only [update_room_code, if_pos hr, get_room_code]
      rw [List.find?_cons_of_pos _ (by simp [hr])]
      rfl
    · have h2 : get_room_by_id rest room_id = some room := by
        simp only [get_room_by_id] at h
        rw [List.find?_cons_of_neg _ (by simp [hr])] at h
        exact h
      simp only [update_room_code, if_neg hr, get_room_code]
      rw [List.find?_cons_of_neg _ (by simp [hr])]
      exact ih h2

theorem put_get_roundtrip_wit :
    get_room_code (update_room_code [⟨"a", "old"⟩] "a" "X") "a" = some "X" :=
  put_get_roundtrip [⟨"a", "old"⟩] "a" "X" ⟨"a", "old"⟩ rfl

/-- C9, counterexample: `update_room_code` on a missing room returns to
its caller exactly the value it returns on a hit — the Python function body
has no `return`, so both paths yield `None`. No absent/NotFound outcome is
signalled to the caller, refuting that conjunct of the claim (the absence
check is purely internal). -/
theorem update_room_code_signals_nothing :
    update_room_code_ret [⟨"a", "1"⟩] "missing" "new" =
      update_room_code_ret [⟨"a", "1"⟩] "a" "new" ∧
    get_room_by_id [⟨"a", "1"⟩] "missing" = none ∧
    get_room_by_id [⟨"a", "1"⟩] "a" = some ⟨"a", "1"⟩ :=
  ⟨rfl, rfl, rfl⟩

/-- C9, amended: `update_room_code` against a room id absent from the
store raises no error, creates no room and leaves the store entirely
unchanged; it returns `None` exactly as on success, so the absent outcome is
detected only internally and not signalled to the caller. -/
theorem update_room_code_absent_noop (db : Store) (room_id : RoomId)
    (code_content : String) (h : get_room_by_id db room_id = none) :
    update_room_code db room_id code_content = db ∧
    update_room_code_ret db room_id code_content = () := by
  refine ⟨?_, rfl⟩
  induction db with
  | nil => rfl
  | cons rm rest ih =>
    rw [get_room_by_id, List.find?_eq_none] at h
    have h1 : ¬ rm.room_id = room_id := by
      simpa using h rm (List.mem_cons_self _ _)
    have h2 : get_room_by_id rest room_id = none := by
      rw [get_room_by_id, List.find?_eq_none]
      exact fun x hx => h x (List.mem_cons_of_mem _ hx)
    rw [update_room_code, if_neg h1, ih h2]

theorem update_room_code_absent_noop_wit :
    update_room_code [⟨"a", "1"⟩] "zzz" "c" = [⟨"a", "1"⟩] ∧
    update_room_code_ret [⟨"a", "1"⟩] "zzz" "c" = () :=
  update_room_code_absent_noop [⟨"a", "1"⟩] "zzz" "c" rfl

theorem takeWhile_all_true (l : List WS) : (l.takeWhile fun _ => !false) = l := by
  induction l with
  | nil => rfl
  | cons a rest ih =>
    rw [List.takeWhile_cons]
    simp [ih]

theorem filter_ne_length_of_nodup (l : List WS) (s : WS) (hnd : l.Nodup)
    (hs : s ∈ l) : (l.filter fun c => c ≠ s).length = l.length - 1 := by
  induction l with
  | nil => cases hs
  | cons a rest ih =>
    rw [List.nodup_cons] at hnd
    rcases List.mem_cons.mp hs with h1 | h1
    · subst h1
      rw [List.filter_cons, if_neg (by simp)]
      rw [List.filter_eq_self.mpr]
      · simp
      · intro x hx
        simp only [ne_eq, decide_eq_true_eq]
        exact fun hxs => hnd.1 (hxs ▸ hx)
    · have has : (a : WS) ≠ s := fun hc => hnd.1 (by rw [hc]; exact h1)
      rw [List.filter_cons, if_pos (by simp [has])]
      simp only [List.length_cons]
      rw [ih hnd.2 h1]
      have hpos : 1 ≤ rest.length := List.length_pos.mpr (List.ne_nil_of_mem h1)
      omega

/-- C6: broadcasting in a room whose entry holds the distinct
connections `conns` (the sender among them) delivers the message to exactly
`conns.length - 1` connections: the sender receives nothing, every other
connection in the entry receives the message exactly once, and no failure
is raised (all sends succeeding, `fails` constantly false). -/
theorem broadcast_delivers_exactly_once (message : String) (room_id : RoomId)
    (sender : WS) (reg : Registry) (conns : List WS)
    (h : lookupRoom reg room_id = some conns) (hnd : conns.Nodup)
    (hs : sender ∈ conns) :
    (broadcast (fun _ => false) message room_id sender reg).sent.length =
      conns.length - 1 ∧
    (∀ m, (sender, m) ∉
      (broadcast (fun _ => false) message room_id sender reg).sent) ∧
    (∀ c ∈ conns, c ≠ sender →
      ((broadcast (fun _ => false) message room_id sender reg).sent.map
        Prod.fst).count c = 1) ∧
    (∀ q ∈ (broadcast (fun _ => false) message room_id sender reg).sent,
      q.2 = message) ∧
    (broadcast (fun _ => false) message room_id sender reg).raised = false := by
  have hsent : (broadcast (fun _ => false) message room_id sender reg).sent =
      (conns.filter fun c => c ≠ sender).map fun c => (c, message) := by
    simp only [broadcast, h]
    rw [send_loop_sent]
    congr 1
    exact takeWhile_all_true _
  have hraised : (broadcast (fun _ => false) message room_id sender reg).raised
      = false := by
    simp only [broadcast, h]
    rw [send_loop_raised]
    simp
  have hfst : (broadcast (fun _ => false) message room_id sender reg).sent.map
      Prod.fst = conns.filter fun c => decide (c ≠ sender) := by
    rw [hsent, List.map_map]
    exact List.map_id' _
  refine ⟨?_, ?_, ?_, ?_, hraised⟩
  · rw [hsent, List.length_map]
    exact filter_ne_length_of_nodup conns sender hnd hs
  · intro m hm
    rw [hsent] at hm
    rcases List.mem_map.mp hm with ⟨c, hc, hceq⟩
    have hcsend : c = sender := congrArg Prod.fst hceq
    rw [hcsend] at hc
    rcases List.mem_filter.mp hc with ⟨_, hcs⟩
    simp at hcs
  · intro c hc hcs
    rw [hfst]
    exact List.count_eq_one_of_mem (List.Nodup.filter _ hnd)
      (List.mem_filter.mpr ⟨hc, by simp [hcs]⟩)
  · intro q hq
    rw [hsent] at hq
    rcases List.mem_map.mp hq with ⟨c, _, hceq⟩
    exact (congrArg Prod.snd hceq).symm.trans rfl

theorem broadcast_delivers_exactly_once_wit :
    (broadcast (fun _ => false) "m" "r" 1 [("r", [0, 1, 2])]).sent.length = 2 ∧
    (1, "m") ∉ (broadcast (fun _ => false) "m" "r" 1 [("r", [0, 1, 2])]).sent ∧
    ((broadcast (fun _ => false) "m" "r" 1 [("r", [0, 1, 2])]).sent.map
      Prod.fst).count 0 = 1 :=
  have h := broadcast_delivers_exactly_once "m" "r" 1 [("r", [0, 1, 2])]
    [0, 1, 2] rfl (by decide) (by decide)
  ⟨h.1, h.2.1 "m", h.2.2.1 0 (by decide) (by decide)⟩

/-- C10: `connect` is not idempotent: joining a websocket already
present (exactly once) in the room's entry appends a second occurrence; a
broadcast from a different sender then delivers the message to that
websocket twice (once per occurrence); and a single `disconnect` removes
only the first occurrence without raising, leaving the websocket still
registered. -/
theorem connect_not_idempotent (reg : Registry) (room_id : RoomId)
    (ws s : WS) (l : List WS) (message : String)
    (h : lookupRoom reg room_id = some l) (hc : l.count ws = 1)
    (hs : s ≠ ws) :
    lookupRoom (connect ws room_id reg) room_id = some (l ++ [ws]) ∧
    ((broadcast (fun _ => false) message room_id s
        (connect ws room_id reg)).sent.map Prod.fst).count ws = 2 ∧
    (disconnect ws room_id (connect ws room_id reg)).raised = false ∧
    (∃ l2, lookupRoom (disconnect ws room_id (connect ws room_id reg)).reg
        room_id = some l2 ∧ ws ∈ l2) := by
  have h1 : connect ws room_id reg = setRoom reg room_id (l ++ [ws]) := by
    simp only [connect, h]
  have h2 : lookupRoom (connect ws room_id reg) room_id = some (l ++ [ws]) := by
    rw [h1]
    exact lookupRoom_setRoom_self reg room_id (l ++ [ws])
  have hcount2 : (l ++ [ws]).count ws = 2 := by
    rw [List.count_append, hc]
    simp
  have hbc : ((broadcast (fun _ => false) message room_id s
      (connect ws room_id reg)).sent.map Prod.fst).count ws = 2 := by
    have hsent : (broadcast (fun _ => false) message room_id s
        (connect ws room_id reg)).sent =
        ((l ++ [ws]).filter fun c => c ≠ s).map fun c => (c, message) := by
      simp only [broadcast, h2]
      rw [send_loop_sent]
      congr 1
      exact takeWhile_all_true _
    have hfst : (broadcast (fun _ => false) message room_id s
        (connect ws room_id reg)).sent.map Prod.fst =
        (l ++ [ws]).filter fun c => decide (c ≠ s) := by
      rw [hsent, List.map_map]
      exact List.map_id' _
    rw [hfst, List.count_filter (by simp [Ne.symm hs]), hcount2]
  have hmem : ws ∈ l ++ [ws] :=
    List.mem_append_right l (List.mem_singleton.mpr rfl)
  have hce : ((l ++ [ws]).erase ws).count ws = 1 := by
    rw [List.count_erase_self, hcount2]
  have hwm : ws ∈ (l ++ [ws]).erase ws :=
    List.count_pos_iff.mp (by rw [hce]; exact Nat.one_pos)
  have hne : (l ++ [ws]).erase ws ≠ [] := List.ne_nil_of_mem hwm
  have hd : disconnect ws room_id (connect ws room_id reg) =
      ⟨false, setRoom (connect ws room_id reg) room_id
        ((l ++ [ws]).erase ws)⟩ := by
    simp [disconnect, h2, hmem, hne]
  refine ⟨h2, hbc, ?_, ?_⟩
  · rw [hd]
  · refine ⟨(l ++ [ws]).erase ws, ?_, hwm⟩
    rw [hd]
    exact lookupRoom_setRoom_self _ _ _

theorem connect_not_idempotent_wit :
    lookupRoom (connect 3 "r" [("r", [7, 3])]) "r" = some ([7, 3] ++ [3]) ∧
    ((broadcast (fun _ => false) "m" "r" 7
        (connect 3 "r" [("r", [7, 3])])).sent.map Prod.fst).count 3 = 2 ∧
    (disconnect 3 "r" (connect 3 "r" [("r", [7, 3])])).raised = false :=
  have h := connect_not_idempotent [("r", [7, 3])] "r" 3 7 [7, 3] "m" rfl
    (by decide) (by decide)
  ⟨h.1, h.2.1, h.2.2.1⟩

/-! ## Shape of the session call log -/

theorem ws_loop_nil (fails : WS → Bool) (ws : WS) (r : RoomId) (db : Store)
    (reg : Registry) : ws_loop fails ws r [] db reg = ⟨db, reg, [], false⟩ :=
  rfl

theorem ws_loop_close (fails : WS → Bool) (ws : WS) (r : RoomId)
    (rest : List Ev) (db : Store) (reg : Registry) :
    ws_loop fails ws r (Ev.close :: rest) db reg =
      ⟨db, (disconnect ws r reg).reg, [Call.leaveCall],
        (disconnect ws r reg).raised⟩ := rfl

theorem ws_loop_msg (fails : WS → Bool) (ws : WS) (r : RoomId) (m : String)
    (rest : List Ev) (db : Store) (reg : Registry) :
    ws_loop fails ws r (Ev.msg m :: rest) db reg =
      if (broadcast fails m r ws reg).raised then
        ⟨update_room_code db r m, reg,
          [Call.putCall m, Call.broadcastCall m], true⟩
      else
        ⟨(ws_loop fails ws r rest (update_room_code db r m) reg).db,
          (ws_loop fails ws r rest (update_room_code db r m) reg).reg,
          Call.putCall m :: Call.broadcastCall m ::
            (ws_loop fails ws r rest (update_room_code db r m) reg).log,
          (ws_loop fails ws r rest (update_room_code db r m) reg).crashed⟩ :=
  rfl

/-- The call logs the receive loop can produce: a (possibly crashed) run of
`put`/`broadcast` pairs, optionally ending in the `leave` of the disconnect
handler. -/
inductive GuardedLog : List Call → Prop where
  | nil : GuardedLog []
  | leave : GuardedLog [Call.leaveCall]
  | pair (m : String) (rest : List Call) : GuardedLog rest →
      GuardedLog (Call.putCall m :: Call.broadcastCall m :: rest)

theorem guardedLog_decomp (log : List Call) (hg : GuardedLog log) :
    ∀ s1 s2 m, log = s1 ++ Call.broadcastCall m :: s2 →
      ∃ s0, s1 = s0 ++ [Call.putCall m] := by
  induction hg with
  | nil =>
    intro s1 s2 m h
    cases s1 <;> simp at h
  | leave =>
    intro s1 s2 m h
    cases s1 with
    | nil => simp at h
    | cons a s1a => cases s1a <;> simp at h
  | pair m1 rest hrest ih =>
    intro s1 s2 m h
    cases s1 with
    | nil => simp at h
    | cons a s1a =>
      cases s1a with
      | nil =>
        simp only [List.cons_append, List.nil_append, List.cons.injEq] at h
        obtain ⟨ha, hm, _⟩ := h
        refine ⟨[], ?_⟩
        rw [List.nil_append, ← ha]
        have hmm : m1 = m := Call.broadcastCall.inj hm
        rw [hmm]
      | cons b s1b =>
        simp only [List.cons_append, List.cons.injEq] at h
        obtain ⟨ha, hb, hrest2⟩ := h
        obtain ⟨s0, hs0⟩ := ih s1b s2 m hrest2
        refine ⟨a :: b :: s0, ?_⟩
        rw [hs0]
        simp

theorem ws_loop_guarded (fails : WS → Bool) (ws : WS) (r : RoomId) :
    ∀ (events : List Ev) (db : Store) (reg : Registry),
      GuardedLog (ws_loop fails ws r events db reg).log := by
  intro events
  induction events with
  | nil => intro db reg; exact GuardedLog.nil
  | cons e rest ih =>
    intro db reg
    cases e with
    | close => exact GuardedLog.leave
    | msg m =>
      rw [ws_loop_msg]
      by_cases hb : (broadcast fails m r ws reg).raised
      · rw [if_pos hb]
        exact GuardedLog.pair m [] GuardedLog.nil
      · rw [if_neg hb]
        exact GuardedLog.pair m _ (ih (update_room_code db r m) reg)

/-- C7: in every run of the `ws_coding` session, every `broadcast` call
for a message is immediately preceded in the call log by the `put`
(`update_room_code`) call persisting that same message: persistence strictly
precedes fan-out, and no message is broadcast without its persistence call
having been made. -/
theorem put_precedes_broadcast (fails : WS → Bool) (websocket : WS)
    (room_id : RoomId) (events : List Ev) (db : Store) (reg : Registry)
    (s1 s2 : List Call) (m : String)
    (h : (ws_coding fails websocket room_id events db reg).log =
      s1 ++ Call.broadcastCall m :: s2) :
    ∃ s0, s1 = s0 ++ [Call.putCall m] := by
  have hg : GuardedLog (ws_coding fails websocket room_id events db reg).log := by
    cases hdb : get_room_by_id db room_id with
    | none =>
      simp only [ws_coding, hdb]
      exact GuardedLog.nil
    | some room =>
      simp only [ws_coding, hdb]
      exact ws_loop_guarded fails websocket room_id events db
        (connect websocket room_id reg)
  exact guardedLog_decomp _ hg s1 s2 m h

theorem put_precedes_broadcast_wit :
    ∃ s0, [Call.putCall "a"] = s0 ++ [Call.putCall "a"] :=
  put_precedes_broadcast (fun _ => false) 0 "r" [Ev.msg "a"] [⟨"r", ""⟩] []
    [Call.putCall "a"] [] "a" rfl

/-- C4, counterexample: room `"r"` exists with empty content; websocket
`1` is already registered and its sends fail. A session for websocket `0`
receives one message: the broadcast raises, the exception escapes the
`except WebSocketDisconnect` clause, and the session terminates (channel
closed by the error) with `manager.disconnect` never called — websocket `0`
stays registered. This refutes that leave is always executed on channel
closure. -/
theorem error_mid_loop_skips_leave_cex :
    (ws_coding (fun w => w == 1) 0 "r" [Ev.msg "x"] [⟨"r", ""⟩]
      [("r", [1])]).crashed = true ∧
    Call.leaveCall ∉ (ws_coding (fun w => w == 1) 0 "r" [Ev.msg "x"]
      [⟨"r", ""⟩] [("r", [1])]).log ∧
    lookupRoom (ws_coding (fun w => w == 1) 0 "r" [Ev.msg "x"] [⟨"r", ""⟩]
      [("r", [1])]).reg "r" = some [1, 0] := by
  decide

/-- C4, amended: `ConnectionRegistry.leave` is executed whenever the
session's channel closure is a `WebSocketDisconnect` raised by the receive
call (a `close` event, no error having escaped the loop); an error raised
mid-loop (e.g. a send failure during broadcast) terminates the session
without executing leave. -/
theorem leave_runs_on_clean_disconnect (fails : WS → Bool) (websocket : WS)
    (room_id : RoomId) (events : List Ev) (db : Store) (reg : Registry)
    (room : Room) (hroom : get_room_by_id db room_id = some room)
    (hclose : Ev.close ∈ events)
    (hok : (ws_coding fails websocket room_id events db reg).crashed = false) :
    Call.leaveCall ∈ (ws_coding fails websocket room_id events db reg).log := by
  have hloop : ∀ (evs : List Ev) (db0 : Store) (reg0 : Registry),
      Ev.close ∈ evs → (ws_loop fails websocket room_id evs db0 reg0).crashed = false →
      Call.leaveCall ∈ (ws_loop fails websocket room_id evs db0 reg0).log := by
    intro evs
    induction evs with
    | nil => intro db0 reg0 hc; cases hc
    | cons e rest ih =>
      intro db0 reg0 hc hok0
      cases e with
      | close =>
        rw [ws_loop_close]
        exact List.mem_singleton.mpr rfl
      | msg m =>
        rw [ws_loop_msg] at hok0 ⊢
        by_cases hb : (broadcast fails m room_id websocket reg0).raised
        · rw [if_pos hb] at hok0
          cases hok0
        · rw [if_neg hb] at hok0 ⊢
          have hc2 : Ev.close ∈ rest := by
            rcases List.mem_cons.mp hc with h2 | h2
            · cases h2
            · exact h2
          exact List.mem_cons_of_mem _ (List.mem_cons_of_mem _
            (ih (update_room_code db0 room_id m) reg0 hc2 hok0))
  simp only [ws_coding, hroom] at hok ⊢
  exact hloop events db (connect websocket room_id reg) hclose hok

theorem leave_runs_on_clean_disconnect_wit :
    Call.leaveCall ∈
      (ws_coding (fun _ => false) 0 "r" [Ev.msg "x", Ev.close] [⟨"r", ""⟩]
        []).log :=
  leave_runs_on_clean_disconnect (fun _ => false) 0 "r"
    [Ev.msg "x", Ev.close] [⟨"r", ""⟩] [] ⟨"r", ""⟩ rfl (by decide) rfl

end PairProg
